import Mathlib

/-!
Shallow embedding of the slot-lifecycle engine of `src/video_gw.rs`
(struct `VideoGateway`): a FIFO pool of slot ids `1..=max_slots`
(`free_slots : VecDeque<SlotId>` under a mutex), a moka TTL cache mapping
slot id to URL, an eviction listener that hands reclaimed ids back to the
pool, and a background sweep loop driving `run_pending_tasks`.

Modelling choices, each tied to the source:

* `SlotId` is `u32` in Rust; ids only ever come from the literal range
  `1..=max_slots` and from recycling, so no wrapping arithmetic can occur
  and `Nat` is a faithful carrier.
* Time is a logical clock (`now : Nat`); `Duration` values are `Nat`.
  moka's `time_to_live` policy marks an entry expired once
  `now ≥ insertion time + ttl`, and a plain `get` does not extend the
  lifetime (fixed, not sliding, expiration).
* The eviction listener's `tokio::spawn` of the `push_back` onto
  `free_slots` is modelled by a queue `pending` of spawned-but-not-yet-run
  release tasks; `processEvictionOp` runs the oldest one.
* `tick` (`self.cache.run_pending_tasks()`, invoked by the background
  sweep loop) removes every expired entry and fires the eviction listener
  with cause `Expired` for each.
* moka's `max_capacity(max_slots)` can never force a size eviction in a
  reachable state (at most `max_slots` distinct keys exist), so
  `cacheInsert` has no size-eviction branch; the `Size` arm of the
  listener itself is still modelled faithfully in `evictionListener`.
-/

/-- Rust: `pub type SlotId = u32`. -/
abbrev SlotId := Nat

/-- One cache entry: the stored URL together with the absolute instant at
which it expires (insertion time + ttl, per moka's `time_to_live`). -/
structure CacheEntry where
  url : String
  expiry : Nat
deriving Repr, DecidableEq

/-- moka's `RemovalCause`: the four variants matched by the eviction
listener installed in `VideoGateway::new`. -/
inductive RemovalCause where
  | Replaced
  | Expired
  | Explicit
  | Size
deriving Repr, DecidableEq

/-- State of one `VideoGateway` instance.  `cache` and `free_slots` are the
two fields of the Rust struct; `ttl` is the cache's time-to-live policy
fixed at construction; `pending` holds the eviction-listener tasks that
have been spawned but not yet run; `now` is the logical clock. -/
structure VideoGateway where
  ttl : Nat
  cache : List (SlotId × CacheEntry)
  free_slots : List SlotId
  pending : List SlotId
  now : Nat
deriving Repr, DecidableEq

/-- The eviction listener closure in `VideoGateway::new`: on `Replaced` it
returns at once (no pool action); on every other cause it spawns a task
that will `push_back` the slot id onto `free_slots`.  Here it acts on the
queue of spawned release tasks. -/
def evictionListener (cause : RemovalCause) (slotId : SlotId)
    (pending : List SlotId) : List SlotId :=
  match cause with
  | RemovalCause.Replaced => pending
  | RemovalCause.Expired => pending ++ [slotId]
  | RemovalCause.Explicit => pending ++ [slotId]
  | RemovalCause.Size => pending ++ [slotId]

/-- Association-list lookup on the cache (moka map lookup by key). -/
def lookupSlot : List (SlotId × CacheEntry) → SlotId → Option CacheEntry
  | [], _ => none
  | e :: rest, id => if e.1 = id then some e.2 else lookupSlot rest id

/-- Association-list upsert: overwrite in place when the key is present,
append otherwise. -/
def insertEntry : List (SlotId × CacheEntry) → SlotId → CacheEntry →
    List (SlotId × CacheEntry)
  | [], id, e => [(id, e)]
  | e0 :: rest, id, e =>
    if e0.1 = id then (id, e) :: rest else e0 :: insertEntry rest id e

/-- `self.cache.insert(slot_id, url)`: installs or overwrites the entry for
the id, setting its expiry clock to `now + ttl`.  Overwriting a physically
present entry fires the eviction listener with cause `Replaced`. -/
def cacheInsert (s : VideoGateway) (id : SlotId) (url : String) :
    VideoGateway :=
  match lookupSlot s.cache id with
  | some _ =>
    { s with
      cache := insertEntry s.cache id ⟨url, s.now + s.ttl⟩,
      pending := evictionListener RemovalCause.Replaced id s.pending }
  | none =>
    { s with cache := insertEntry s.cache id ⟨url, s.now + s.ttl⟩ }

/-- `self.cache.get(&slot_id)`: returns the stored URL while the entry is
physically present and unexpired; an expired entry reads as absent even
before `run_pending_tasks` has removed it. -/
def cacheGet (s : VideoGateway) (id : SlotId) : Option String :=
  match lookupSlot s.cache id with
  | some e => if s.now < e.expiry then some e.url else none
  | none => none

/-- `VideoGateway::create_redirect`: pop the front of `free_slots`
(`None` on an empty pool, leaving the state unchanged), then insert the
url under the popped id. -/
def createRedirect (s : VideoGateway) (url : String) :
    VideoGateway × Option SlotId :=
  match s.free_slots with
  | [] => (s, none)
  | id :: rest =>
    (cacheInsert { s with free_slots := rest } id url, some id)

/-- `VideoGateway::touch_redirect_slot`: if the id currently has a live
entry, re-insert the same url (resetting the expiry clock); otherwise do
nothing. -/
def touchRedirectSlot (s : VideoGateway) (id : SlotId) : VideoGateway :=
  match cacheGet s id with
  | some url => cacheInsert s id url
  | none => s

/-- `VideoGateway::get_redirect`: a pure read of the cache. -/
def getRedirect (s : VideoGateway) (id : SlotId) : Option String :=
  cacheGet s id

/-- `VideoGateway::get_all_redirect`: snapshot of the live entries. -/
def getAllRedirect (s : VideoGateway) : List (SlotId × String) :=
  (s.cache.filter fun e => s.now < e.2.expiry).map fun e => (e.1, e.2.url)

/-- `VideoGateway::tick` (`run_pending_tasks`): remove every expired entry
and fire the eviction listener with cause `Expired` for each. -/
def tickOp (s : VideoGateway) : VideoGateway :=
  { s with
    cache := s.cache.filter fun e => s.now < e.2.expiry,
    pending := (s.cache.filter fun e => e.2.expiry ≤ s.now).foldl
      (fun p e => evictionListener RemovalCause.Expired e.1 p) s.pending }

/-- Run the oldest spawned eviction-listener task: `push_back` its slot id
onto the tail of `free_slots`.  A no-op when no task is outstanding. -/
def processEvictionOp (s : VideoGateway) : VideoGateway :=
  match s.pending with
  | [] => s
  | id :: rest =>
    { s with free_slots := s.free_slots ++ [id], pending := rest }

/-- Let `d` units of time pass. -/
def advanceOp (s : VideoGateway) (d : Nat) : VideoGateway :=
  { s with now := s.now + d }

/-- `VideoGateway::new(max_slots, ttl)`: free pool `(1..=max_slots)`,
empty cache. -/
def initState (maxSlots ttl : Nat) : VideoGateway :=
  { ttl := ttl, cache := [], free_slots := List.range' 1 maxSlots,
    pending := [], now := 0 }

/-- The events that can act on a gateway: the four facade operations, the
sweep-driven `tick`, the run of one spawned eviction task, and the passage
of time. -/
inductive GwOp where
  | create (url : String)
  | touch (id : SlotId)
  | getOne (id : SlotId)
  | getAll
  | tick
  | evict
  | advance (d : Nat)
deriving Repr, DecidableEq

/-- Execute one event, returning the new state and the slot id handed out
when the event was a successful `create_redirect`. -/
def execOp (s : VideoGateway) : GwOp → VideoGateway × Option SlotId
  | GwOp.create url => createRedirect s url
  | GwOp.touch id => (touchRedirectSlot s id, none)
  | GwOp.getOne _ => (s, none)
  | GwOp.getAll => (s, none)
  | GwOp.tick => (tickOp s, none)
  | GwOp.evict => (processEvictionOp s, none)
  | GwOp.advance d => (advanceOp s d, none)

/-- State after one event. -/
def stepOp (s : VideoGateway) (op : GwOp) : VideoGateway := (execOp s op).1

/-- State after a sequence of events. -/
def runOps (s : VideoGateway) : List GwOp → VideoGateway
  | [] => s
  | op :: ops => runOps (stepOp s op) ops

/-- The states reachable from `VideoGateway::new(maxSlots, ttl)`. -/
def Reachable (maxSlots ttl : Nat) (s : VideoGateway) : Prop :=
  ∃ ops, runOps (initState maxSlots ttl) ops = s

/-- The slot ids handed out by the successful `create_redirect` calls of an
event sequence, in order. -/
def runAllocs (s : VideoGateway) : List GwOp → List SlotId
  | [] => []
  | op :: ops =>
    match (execOp s op).2 with
    | some id => id :: runAllocs (stepOp s op) ops
    | none => runAllocs (stepOp s op) ops

/-- Run one `create_redirect` per url, collecting every returned
`Option SlotId` in order. -/
def runCreates (s : VideoGateway) : List String →
    VideoGateway × List (Option SlotId)
  | [] => (s, [])
  | url :: rest =>
    let r := createRedirect s url
    let r2 := runCreates r.1 rest
    (r2.1, r.2 :: r2.2)

/-- Every slot id currently accounted for: in the free pool, as a cache
key, or inside a spawned-but-unrun eviction task. -/
def slotIds (s : VideoGateway) : List SlotId :=
  s.free_slots ++ s.cache.map Prod.fst ++ s.pending

/-- The gateway invariant: the ttl policy is the constructed one, the ids
in pool + cache + pending tasks are a permutation of `1..=maxSlots`, and
no entry's expiry clock lies further than `ttl` in the future. -/
def GwInv (maxSlots ttl : Nat) (s : VideoGateway) : Prop :=
  s.ttl = ttl ∧ (slotIds s).Perm (List.range' 1 maxSlots) ∧
    ∀ e ∈ s.cache, e.2.expiry ≤ s.now + ttl

/-- The cache entries that are live (unexpired) right now. -/
def liveEntries (s : VideoGateway) : List (SlotId × CacheEntry) :=
  s.cache.filter fun e => s.now < e.2.expiry

/-- Index of the first occurrence of an id in a list (length when absent). -/
def firstIdx : List SlotId → SlotId → Nat
  | [], _ => 0
  | x :: xs, a => if x = a then 0 else firstIdx xs a + 1

/-- The parameters of `VideoGateway::new(max_slots: SlotId, ttl: Duration)`
— the entire constructor-level configuration surface of the gateway. -/
structure NewParams where
  maxSlots : Nat
  ttl : Nat
deriving Repr, DecidableEq

/-- Seconds slept between iterations of the background loop spawned in
`VideoGateway::new`: the literal `Duration::from_secs(3)`.  It takes the
constructor parameters as input to record whether it depends on them. -/
def sweepSleepSecs (_p : NewParams) : Nat := 3

/-- One iteration of the background loop spawned in `VideoGateway::new`:
`sv.tick().await` followed by `tokio::time::sleep(Duration::from_secs(3))`. -/
def sweepLoopIter (s : VideoGateway) : VideoGateway :=
  advanceOp (tickOp s) 3

/-- Modelled from the spec: "Configuration surface: `max_slots`, `ttl`,
`sweep_interval` (maintenance cadence, reference 3s)" — the sweep cadence
is configurable iff it genuinely varies with the constructor
configuration. -/
def sweepCadenceConfigurable : Prop :=
  ∃ p q : NewParams, sweepSleepSecs p ≠ sweepSleepSecs q

/-- Concrete url for witnesses. -/
def wUrlA : String := "a"

/-- Concrete url for witnesses. -/
def wUrlB : String := "b"

/-- Concrete url for witnesses. -/
def wUrlC : String := "c"

/-- Concrete url pair for witnesses. -/
def urls2 : List String := [wUrlA, wUrlB]

/-- Concrete gateway state for witnesses: one cached entry, one free slot,
one spawned-but-unrun eviction task. -/
def wState3 : VideoGateway :=
  { ttl := 5, cache := [(1, ⟨wUrlA, 5⟩)], free_slots := [2],
    pending := [3], now := 0 }

theorem cacheInsert_free (s : VideoGateway) (id : SlotId) (url : String) :
    (cacheInsert s id url).free_slots = s.free_slots := by
  cases h : lookupSlot s.cache id <;> simp [cacheInsert, h]

theorem cacheInsert_pending (s : VideoGateway) (id : SlotId) (url : String) :
    (cacheInsert s id url).pending = s.pending := by
  cases h : lookupSlot s.cache id <;> simp [cacheInsert, h, evictionListener]

theorem cacheInsert_now (s : VideoGateway) (id : SlotId) (url : String) :
    (cacheInsert s id url).now = s.now := by
  cases h : lookupSlot s.cache id <;> simp [cacheInsert, h]

theorem cacheInsert_ttl (s : VideoGateway) (id : SlotId) (url : String) :
    (cacheInsert s id url).ttl = s.ttl := by
  cases h : lookupSlot s.cache id <;> simp [cacheInsert, h]

theorem cacheInsert_cache (s : VideoGateway) (id : SlotId) (url : String) :
    (cacheInsert s id url).cache = insertEntry s.cache id ⟨url, s.now + s.ttl⟩ := by
  cases h : lookupSlot s.cache id <;> simp [cacheInsert, h]

theorem touch_free (s : VideoGateway) (id : SlotId) :
    (touchRedirectSlot s id).free_slots = s.free_slots := by
  cases h : cacheGet s id <;> simp [touchRedirectSlot, h, cacheInsert_free]

theorem touch_pending (s : VideoGateway) (id : SlotId) :
    (touchRedirectSlot s id).pending = s.pending := by
  cases h : cacheGet s id <;> simp [touchRedirectSlot, h, cacheInsert_pending]

theorem touch_now (s : VideoGateway) (id : SlotId) :
    (touchRedirectSlot s id).now = s.now := by
  cases h : cacheGet s id <;> simp [touchRedirectSlot, h, cacheInsert_now]

theorem touch_ttl (s : VideoGateway) (id : SlotId) :
    (touchRedirectSlot s id).ttl = s.ttl := by
  cases h : cacheGet s id <;> simp [touchRedirectSlot, h, cacheInsert_ttl]

theorem lookupSlot_insertEntry_self (c : List (SlotId × CacheEntry))
    (id : SlotId) (e : CacheEntry) :
    lookupSlot (insertEntry c id e) id = some e := by
  induction c with
  | nil => simp [insertEntry, lookupSlot]
  | cons hd tl ih =>
    by_cases h : hd.1 = id <;> simp [insertEntry, lookupSlot, h, ih]

theorem insertEntry_map_fst_of_lookup (c : List (SlotId × CacheEntry))
    (id : SlotId) (e0 e : CacheEntry) (h : lookupSlot c id = some e0) :
    (insertEntry c id e).map Prod.fst = c.map Prod.fst := by
  induction c with
  | nil => simp [lookupSlot] at h
  | cons hd tl ih =>
    by_cases hh : hd.1 = id
    · simp [insertEntry, hh]
    · simp [lookupSlot, hh] at h
      simp [insertEntry, hh, ih h]

theorem mem_insertEntry (c : List (SlotId × CacheEntry)) (id : SlotId)
    (e : CacheEntry) (x : SlotId × CacheEntry) (hx : x ∈ insertEntry c id e) :
    x = (id, e) ∨ x ∈ c := by
  induction c with
  | nil => simp [insertEntry] at hx; simp [hx]
  | cons hd tl ih =>
    by_cases hh : hd.1 = id
    · simp [insertEntry, hh] at hx
      rcases hx with hx | hx
      · exact Or.inl hx
      · exact Or.inr (List.mem_cons_of_mem _ hx)
    · simp [insertEntry, hh] at hx
      rcases hx with hx | hx
      · exact Or.inr (by simp [hx])
      · rcases ih hx with h1 | h1
        · exact Or.inl h1
        · exact Or.inr (List.mem_cons_of_mem _ h1)

theorem lookupSlot_eq_none_of_not_mem (c : List (SlotId × CacheEntry))
    (id : SlotId) (h : id ∉ c.map Prod.fst) : lookupSlot c id = none := by
  induction c with
  | nil => rfl
  | cons hd tl ih =>
    simp only [List.map_cons, List.mem_cons] at h
    push_neg at h
    have h1 : ¬ hd.1 = id := fun hq => h.1 hq.symm
    simp [lookupSlot, h1, ih h.2]

theorem insertEntry_of_lookup_none (c : List (SlotId × CacheEntry))
    (id : SlotId) (e : CacheEntry) (h : lookupSlot c id = none) :
    insertEntry c id e = c ++ [(id, e)] := by
  induction c with
  | nil => rfl
  | cons hd tl ih =>
    by_cases hh : hd.1 = id
    · simp [lookupSlot, hh] at h
    · simp [lookupSlot, hh] at h
      simp [insertEntry, hh, ih h]

theorem lookupSlot_filter (c : List (SlotId × CacheEntry)) (id : SlotId)
    (e : CacheEntry) (p : SlotId × CacheEntry → Bool)
    (h : lookupSlot c id = some e) (hp : p (id, e) = true) :
    lookupSlot (c.filter p) id = some e := by
  induction c with
  | nil => simp [lookupSlot] at h
  | cons hd tl ih =>
    by_cases hh : hd.1 = id
    · simp [lookupSlot, hh] at h
      have hhd : hd = (id, e) := by
        cases hd; simp_all
      subst hhd
      simp [List.filter, hp, lookupSlot]
    · simp [lookupSlot, hh] at h
      cases hq : p hd <;> simp [List.filter, hq, lookupSlot, hh, ih h]

theorem foldl_evictionListener (l : List (SlotId × CacheEntry))
    (acc : List SlotId) :
    l.foldl (fun p e => evictionListener RemovalCause.Expired e.1 p) acc
      = acc ++ l.map Prod.fst := by
  induction l generalizing acc with
  | nil => simp
  | cons hd tl ih =>
    rw [List.foldl_cons, ih]
    simp [evictionListener]

theorem tickOp_pending (s : VideoGateway) :
    (tickOp s).pending
      = s.pending ++ (s.cache.filter fun e => e.2.expiry ≤ s.now).map Prod.fst := by
  simp [tickOp, foldl_evictionListener]

theorem lookup_cacheInsert_self (s : VideoGateway) (id : SlotId) (url : String) :
    lookupSlot (cacheInsert s id url).cache id = some ⟨url, s.now + s.ttl⟩ := by
  rw [cacheInsert_cache]
  exact lookupSlot_insertEntry_self _ _ _

theorem cacheGet_eq_some_iff (s : VideoGateway) (id : SlotId) (url : String) :
    cacheGet s id = some url ↔
      ∃ e, lookupSlot s.cache id = some e ∧ s.now < e.expiry ∧ e.url = url := by
  cases h : lookupSlot s.cache id with
  | none => simp [cacheGet, h]
  | some e =>
    by_cases hl : s.now < e.expiry <;> simp [cacheGet, h, hl]

theorem nodup_three {a b c : List SlotId} (h : (a ++ b ++ c).Nodup) :
    a.Nodup ∧ b.Nodup ∧ c.Nodup ∧ a.Disjoint b ∧ a.Disjoint c ∧ b.Disjoint c := by
  simp only [List.nodup_append] at h
  obtain ⟨⟨ha, hb, hab⟩, hc, habc⟩ := h
  refine ⟨ha, hb, hc, hab, ?_, ?_⟩
  · intro x hx hx'
    exact habc (List.mem_append_left _ hx) hx'
  · intro x hx hx'
    exact habc (List.mem_append_right _ hx) hx'

theorem gwInv_init (maxSlots ttl : Nat) :
    GwInv maxSlots ttl (initState maxSlots ttl) := by
  refine ⟨rfl, ?_, by simp [initState]⟩
  simp [slotIds, initState]

theorem gwInv_nodup {maxSlots ttl : Nat} {s : VideoGateway}
    (h : GwInv maxSlots ttl s) : (slotIds s).Nodup :=
  h.2.1.symm.nodup (List.nodup_range' 1 maxSlots)

theorem gwInv_create (maxSlots ttl : Nat) (s : VideoGateway) (url : String)
    (h : GwInv maxSlots ttl s) : GwInv maxSlots ttl (createRedirect s url).1 := by
  obtain ⟨httl, hperm, hexp⟩ := h
  cases hf : s.free_slots with
  | nil => simpa [createRedirect, hf] using ⟨httl, hperm, hexp⟩
  | cons id rest =>
    have hnd : (slotIds s).Nodup :=
      gwInv_nodup ⟨httl, hperm, hexp⟩
    have hid : id ∉ s.cache.map Prod.fst := by
      rw [slotIds, hf] at hnd
      exact (nodup_three hnd).2.2.2.1 (by simp)
    have hlook : lookupSlot s.cache id = none :=
      lookupSlot_eq_none_of_not_mem _ _ hid
    have hcache : (createRedirect s url).1.cache
        = s.cache ++ [(id, ⟨url, s.now + s.ttl⟩)] := by
      simp [createRedirect, hf, cacheInsert_cache,
        insertEntry_of_lookup_none _ _ _ hlook]
    have hfree : (createRedirect s url).1.free_slots = rest := by
      simp [createRedirect, hf, cacheInsert_free]
    have hpend : (createRedirect s url).1.pending = s.pending := by
      simp [createRedirect, hf, cacheInsert_pending]
    have hnow : (createRedirect s url).1.now = s.now := by
      simp [createRedirect, hf, cacheInsert_now]
    have httl' : (createRedirect s url).1.ttl = s.ttl := by
      simp [createRedirect, hf, cacheInsert_ttl]
    refine ⟨by rw [httl']; exact httl, ?_, ?_⟩
    · apply List.Perm.trans ?_ hperm
      apply List.perm_iff_count.mpr
      intro x
      by_cases hx : x = id <;>
        simp [slotIds, hf, hcache, hfree, hpend, List.count_append,
          List.count_cons, hx] <;> omega
    · intro e he
      rw [hcache] at he
      rw [hnow]
      rcases List.mem_append.mp he with h1 | h1
      · exact hexp e h1
      · simp at h1
        simp [h1, httl]

theorem gwInv_touch (maxSlots ttl : Nat) (s : VideoGateway) (id : SlotId)
    (h : GwInv maxSlots ttl s) : GwInv maxSlots ttl (touchRedirectSlot s id) := by
  obtain ⟨httl, hperm, hexp⟩ := h
  cases hg : cacheGet s id with
  | none => simpa [touchRedirectSlot, hg] using ⟨httl, hperm, hexp⟩
  | some url =>
    obtain ⟨e, hlook, hlive, hurl⟩ := (cacheGet_eq_some_iff s id url).mp hg
    have hcache : (touchRedirectSlot s id).cache
        = insertEntry s.cache id ⟨url, s.now + s.ttl⟩ := by
      simp [touchRedirectSlot, hg, cacheInsert_cache]
    have hkeys : (touchRedirectSlot s id).cache.map Prod.fst
        = s.cache.map Prod.fst := by
      rw [hcache]
      exact insertEntry_map_fst_of_lookup _ _ _ _ hlook
    refine ⟨by rw [touch_ttl]; exact httl, ?_, ?_⟩
    · have : slotIds (touchRedirectSlot s id) = slotIds s := by
        rw [slotIds, slotIds, touch_free, touch_pending, hkeys]
      rw [this]; exact hperm
    · intro x hx
      rw [hcache] at hx
      rw [touch_now]
      rcases mem_insertEntry _ _ _ _ hx with h1 | h1
      · simp [h1, httl]
      · exact hexp x h1

theorem gwInv_tick (maxSlots ttl : Nat) (s : VideoGateway)
    (h : GwInv maxSlots ttl s) : GwInv maxSlots ttl (tickOp s) := by
  obtain ⟨httl, hperm, hexp⟩ := h
  have hfq : (s.cache.filter fun e => decide (e.2.expiry ≤ s.now))
      = s.cache.filter fun e => !decide (s.now < e.2.expiry) := by
    apply List.filter_congr
    intro x _
    rw [← decide_not]
    exact decide_eq_decide.mpr (Iff.symm Nat.not_lt)
  have hsplit : ((s.cache.filter fun e => decide (s.now < e.2.expiry)).map Prod.fst
      ++ (s.cache.filter fun e => decide (e.2.expiry ≤ s.now)).map Prod.fst).Perm
        (s.cache.map Prod.fst) := by
    rw [hfq, ← List.map_append]
    exact (List.filter_append_perm _ s.cache).map Prod.fst
  refine ⟨httl, ?_, ?_⟩
  · apply List.Perm.trans ?_ hperm
    apply List.perm_iff_count.mpr
    intro x
    have hc := hsplit.count_eq x
    simp only [List.count_append] at hc
    simp only [slotIds, tickOp, foldl_evictionListener, List.count_append]
    omega
  · intro x hx
    simp only [tickOp] at hx
    exact hexp x (List.mem_of_mem_filter hx)

theorem gwInv_evict (maxSlots ttl : Nat) (s : VideoGateway)
    (h : GwInv maxSlots ttl s) : GwInv maxSlots ttl (processEvictionOp s) := by
  obtain ⟨httl, hperm, hexp⟩ := h
  cases hp : s.pending with
  | nil => simpa [processEvictionOp, hp] using ⟨httl, hperm, hexp⟩
  | cons id rest =>
    refine ⟨by simp [processEvictionOp, hp, httl],
      ?_, by simpa [processEvictionOp, hp] using hexp⟩
    apply List.Perm.trans ?_ hperm
    apply List.perm_iff_count.mpr
    intro x
    by_cases hx : x = id <;>
      simp [slotIds, processEvictionOp, hp, List.count_append,
        List.count_cons, hx] <;> omega

theorem gwInv_advance (maxSlots ttl : Nat) (s : VideoGateway) (d : Nat)
    (h : GwInv maxSlots ttl s) : GwInv maxSlots ttl (advanceOp s d) := by
  obtain ⟨httl, hperm, hexp⟩ := h
  refine ⟨httl, hperm, ?_⟩
  intro x hx
  simp only [advanceOp]
  exact le_trans (hexp x hx) (by omega)

theorem gwInv_stepOp (maxSlots ttl : Nat) (s : VideoGateway) (op : GwOp)
    (h : GwInv maxSlots ttl s) : GwInv maxSlots ttl (stepOp s op) := by
  cases op with
  | create url => exact gwInv_create _ _ _ _ h
  | touch id => exact gwInv_touch _ _ _ _ h
  | getOne id => exact h
  | getAll => exact h
  | tick => exact gwInv_tick _ _ _ h
  | evict => exact gwInv_evict _ _ _ h
  | advance d => exact gwInv_advance _ _ _ _ h

theorem gwInv_runOps (maxSlots ttl : Nat) (ops : List GwOp) :
    ∀ s : VideoGateway, GwInv maxSlots ttl s →
      GwInv maxSlots ttl (runOps s ops) := by
  induction ops with
  | nil => intro s h; exact h
  | cons op ops ih => intro s h; exact ih _ (gwInv_stepOp _ _ _ _ h)

theorem reachable_inv {maxSlots ttl : Nat} {s : VideoGateway}
    (h : Reachable maxSlots ttl s) : GwInv maxSlots ttl s := by
  obtain ⟨ops, rfl⟩ := h
  exact gwInv_runOps _ _ _ _ (gwInv_init _ _)

theorem runCreates_spec (urls : List String) :
    ∀ s : VideoGateway, urls.length ≤ s.free_slots.length →
      (runCreates s urls).2 = (s.free_slots.take urls.length).map some ∧
      (runCreates s urls).1.free_slots = s.free_slots.drop urls.length := by
  induction urls with
  | nil => intro s h; simp [runCreates]
  | cons url rest ih =>
    intro s h
    cases hf : s.free_slots with
    | nil => rw [hf] at h; simp at h
    | cons id tl =>
      have hfree1 : (createRedirect s url).1.free_slots = tl := by
        simp [createRedirect, hf, cacheInsert_free]
      have hout : (createRedirect s url).2 = some id := by
        simp [createRedirect, hf]
      have hlen : rest.length ≤ tl.length := by
        rw [hf] at h
        simpa using h
      have hih := ih (createRedirect s url).1 (by rw [hfree1]; exact hlen)
      constructor
      · simp [runCreates, hout, hih.1, hfree1, hf]
      · simp [runCreates, hih.2, hfree1, hf]

/-- Claim C3: dispatch of an eviction notification by cause.  On
`Replaced` the listener takes no pool action — in particular a repeated
`insert` on an already-present key changes neither the free pool, nor the
queue of spawned releases, nor the cache's key list.  On every other
cause (`Expired`, `Explicit`, `Size`) the listener schedules exactly one
release of the id, and running that release pushes the id at the tail of
`free_slots`. -/
theorem eviction_dispatch :
    (∀ id pending, evictionListener RemovalCause.Replaced id pending = pending) ∧
    (∀ cause id pending, cause ≠ RemovalCause.Replaced →
      evictionListener cause id pending = pending ++ [id]) ∧
    (∀ s : VideoGateway, ∀ id rest, s.pending = id :: rest →
      (processEvictionOp s).free_slots = s.free_slots ++ [id] ∧
      (processEvictionOp s).pending = rest ∧
      (processEvictionOp s).cache = s.cache) ∧
    (∀ s : VideoGateway, ∀ id url e, lookupSlot s.cache id = some e →
      (cacheInsert s id url).free_slots = s.free_slots ∧
      (cacheInsert s id url).pending = s.pending ∧
      (cacheInsert s id url).cache.map Prod.fst = s.cache.map Prod.fst) := by
  refine ⟨fun id pending => rfl, ?_, ?_, ?_⟩
  · intro cause id pending hc
    cases cause with
    | Replaced => exact absurd rfl hc
    | Expired => rfl
    | Explicit => rfl
    | Size => rfl
  · intro s id rest hp
    refine ⟨?_, ?_, ?_⟩ <;> simp [processEvictionOp, hp]
  · intro s id url e hl
    exact ⟨cacheInsert_free s id url, cacheInsert_pending s id url, by
      rw [cacheInsert_cache]
      exact insertEntry_map_fst_of_lookup _ _ _ _ hl⟩

/-- Witness for `eviction_dispatch` on concrete inputs. -/
theorem eviction_dispatch_witness :
    evictionListener RemovalCause.Replaced 9 [] = [] ∧
    evictionListener RemovalCause.Expired 9 [] = [9] ∧
    (processEvictionOp wState3).free_slots = [2] ++ [3] ∧
    (cacheInsert wState3 1 wUrlB).pending = wState3.pending :=
  ⟨eviction_dispatch.1 9 [],
    eviction_dispatch.2.1 RemovalCause.Expired 9 [] (by decide),
    (eviction_dispatch.2.2.1 wState3 3 [] rfl).1,
    (eviction_dispatch.2.2.2 wState3 1 wUrlB ⟨wUrlA, 5⟩ (by decide)).2.1⟩

/-- Claim C4: from a fresh `VideoGateway` of capacity `maxSlots`,
`maxSlots` consecutive `create_redirect` calls each return `Some` with
pairwise distinct slot ids, and one further call returns `None`
(surfaced by `create_redirect_handler` as SERVICE_UNAVAILABLE), leaving
the state unchanged. -/
theorem create_exhaustion (maxSlots ttl : Nat) (urls : List String)
    (h : urls.length = maxSlots) :
    (runCreates (initState maxSlots ttl) urls).2.length = maxSlots ∧
    none ∉ (runCreates (initState maxSlots ttl) urls).2 ∧
    (runCreates (initState maxSlots ttl) urls).2.Nodup ∧
    ∀ url, createRedirect (runCreates (initState maxSlots ttl) urls).1 url
      = ((runCreates (initState maxSlots ttl) urls).1, none) := by
  have hlen : urls.length ≤ (initState maxSlots ttl).free_slots.length := by
    simp [initState, h]
  obtain ⟨houts, hfree⟩ := runCreates_spec urls (initState maxSlots ttl) hlen
  have htake : (initState maxSlots ttl).free_slots.take urls.length
      = List.range' 1 maxSlots := by
    simp [initState, h, List.take_of_length_le]
  have hdrop : (runCreates (initState maxSlots ttl) urls).1.free_slots = [] := by
    rw [hfree]
    simp [initState, h, List.drop_of_length_le]
  refine ⟨?_, ?_, ?_, ?_⟩
  · rw [houts, htake]
    simp
  · rw [houts, htake]
    simp
  · rw [houts, htake]
    exact List.Nodup.map (Option.some_injective _) (List.nodup_range' 1 maxSlots)
  · intro url
    simp [createRedirect, hdrop]

/-- Witness for `create_exhaustion` at capacity 2. -/
theorem create_exhaustion_witness :
    (runCreates (initState 2 5) urls2).2.length = 2 ∧
    none ∉ (runCreates (initState 2 5) urls2).2 ∧
    (runCreates (initState 2 5) urls2).2.Nodup ∧
    createRedirect (runCreates (initState 2 5) urls2).1 wUrlC
      = ((runCreates (initState 2 5) urls2).1, none) := by
  have h := create_exhaustion 2 5 urls2 rfl
  exact ⟨h.1, h.2.1, h.2.2.1, h.2.2.2 wUrlC⟩

/-- Claim C7: for an id with no live cache entry (never allocated or
already expired), `get_redirect` returns `none` (mapped to NOT_FOUND by
`get_redirect_handler`) and `touch_redirect_slot` returns with the whole
state — cache and free pool included — unchanged. -/
theorem unknown_slot_noop (s : VideoGateway) (id : SlotId)
    (h : cacheGet s id = none) :
    getRedirect s id = none ∧ touchRedirectSlot s id = s :=
  ⟨h, by simp [touchRedirectSlot, h]⟩

/-- Witness for `unknown_slot_noop`: slot 7 was never allocated. -/
theorem unknown_slot_noop_witness :
    getRedirect (initState 2 5) 7 = none ∧
    touchRedirectSlot (initState 2 5) 7 = initState 2 5 :=
  unknown_slot_noop (initState 2 5) 7 (by decide)

/-- Claim C9: if `create_redirect(url)` hands out a slot id, then a
`get_redirect` on that id performed at any instant strictly before the
entry's expiry (creation time + ttl), with no intervening operation,
returns exactly the url that was passed in. -/
theorem create_get_roundtrip (s : VideoGateway) (url : String)
    (s' : VideoGateway) (id : SlotId)
    (h : createRedirect s url = (s', some id)) :
    ∀ d, d < s.ttl → getRedirect (advanceOp s' d) id = some url := by
  intro d hd
  cases hf : s.free_slots with
  | nil => simp [createRedirect, hf] at h
  | cons id0 rest =>
    rw [createRedirect, hf] at h
    simp only [Prod.mk.injEq, Option.some.injEq] at h
    obtain ⟨hs', hid⟩ := h
    subst hid
    subst hs'
    have hlk := lookup_cacheInsert_self { s with free_slots := rest } id0 url
    have hnow := cacheInsert_now { s with free_slots := rest } id0 url
    simp only [getRedirect, cacheGet, advanceOp] at *
    simp [hlk, hnow]
    omega

/-- Witness for `create_get_roundtrip`: read back two time units after
creation, three before expiry. -/
theorem create_get_roundtrip_witness :
    getRedirect (advanceOp (createRedirect (initState 2 5) wUrlA).1 2) 1
      = some wUrlA :=
  create_get_roundtrip (initState 2 5) wUrlA
    (createRedirect (initState 2 5) wUrlA).1 1 rfl 2 (by decide)

/-- Claim C10: `VideoGateway::new` fills the free pool with exactly
1, 2, ..., maxSlots in ascending order, so the k-th of the first
`maxSlots` `create_redirect` calls returns slot k; in particular the very
first allocation returns slot 1. -/
theorem initial_allocation_order (maxSlots ttl : Nat) (urls : List String)
    (h : urls.length = maxSlots) :
    (initState maxSlots ttl).free_slots = List.range' 1 maxSlots ∧
    (runCreates (initState maxSlots ttl) urls).2
      = (List.range' 1 maxSlots).map some ∧
    (1 ≤ maxSlots → ∀ url,
      (createRedirect (initState maxSlots ttl) url).2 = some 1) := by
  refine ⟨rfl, ?_, ?_⟩
  · have hlen : urls.length ≤ (initState maxSlots ttl).free_slots.length := by
      simp [initState, h]
    rw [(runCreates_spec urls (initState maxSlots ttl) hlen).1]
    simp [initState, h, List.take_of_length_le]
  · intro hN url
    obtain ⟨m, hm⟩ : ∃ m, maxSlots = m + 1 := ⟨maxSlots - 1, by omega⟩
    subst hm
    simp [createRedirect, initState, List.range'_succ]

/-- Witness for `initial_allocation_order` at capacity 2. -/
theorem initial_allocation_order_witness :
    (initState 2 5).free_slots = List.range' 1 2 ∧
    (runCreates (initState 2 5) urls2).2 = (List.range' 1 2).map some ∧
    (createRedirect (initState 2 5) wUrlC).2 = some 1 := by
  have h := initial_allocation_order 2 5 urls2 rfl
  exact ⟨h.1, h.2.1, h.2.2 (by decide) wUrlC⟩

theorem mem_of_lookupSlot (c : List (SlotId × CacheEntry)) (id : SlotId)
    (e : CacheEntry) (h : lookupSlot c id = some e) : (id, e) ∈ c := by
  induction c with
  | nil => simp [lookupSlot] at h
  | cons hd tl ih =>
    by_cases hh : hd.1 = id
    · simp [lookupSlot, hh] at h
      have hhd : hd = (id, e) := by
        cases hd
        simp_all
      simp [hhd]
    · simp [lookupSlot, hh] at h
      exact List.mem_cons_of_mem _ (ih h)

/-- Claim C1 (conservation): in every reachable quiescent state — no
spawned eviction task outstanding and no expired entry still awaiting the
sweep, i.e. every eviction notification due has been fired and processed
— the number of ids in `free_slots` plus the number of live cache entries
equals the capacity `maxSlots`. -/
theorem conservation (maxSlots ttl : Nat) (s : VideoGateway)
    (h : Reachable maxSlots ttl s) (hp : s.pending = [])
    (hl : ∀ e ∈ s.cache, s.now < e.2.expiry) :
    s.free_slots.length + (liveEntries s).length = maxSlots := by
  obtain ⟨-, hperm, -⟩ := reachable_inv h
  have hlive : liveEntries s = s.cache := by
    apply List.filter_eq_self.mpr
    intro e he
    exact decide_eq_true (hl e he)
  have hlen := hperm.length_eq
  simp only [slotIds, hp, List.length_append, List.length_map,
    List.length_nil, List.length_range'] at hlen
  rw [hlive]
  omega

/-- Witness for `conservation`: after one create on a fresh capacity-2
gateway, one slot is free and one entry is live. -/
theorem conservation_witness :
    (runOps (initState 2 5) [GwOp.create wUrlA]).free_slots.length
      + (liveEntries (runOps (initState 2 5) [GwOp.create wUrlA])).length
      = 2 :=
  conservation 2 5 _ ⟨[GwOp.create wUrlA], rfl⟩ (by decide) (by decide)

/-- Claim C2 (mutual exclusion / no double allocation): in every
reachable state no slot id is simultaneously in `free_slots` and a cache
key; consequently a successful `create_redirect` never returns an id that
currently has a live cache entry. -/
theorem no_double_allocation (maxSlots ttl : Nat) (s : VideoGateway)
    (h : Reachable maxSlots ttl s) :
    (∀ id, id ∈ s.free_slots → id ∉ s.cache.map Prod.fst) ∧
    (∀ url s' id, createRedirect s url = (s', some id) →
      cacheGet s id = none) := by
  have hnd : (s.free_slots ++ s.cache.map Prod.fst ++ s.pending).Nodup :=
    gwInv_nodup (reachable_inv h)
  have hdisj : ∀ id, id ∈ s.free_slots → id ∉ s.cache.map Prod.fst :=
    fun id hid hmem => (nodup_three hnd).2.2.2.1 hid hmem
  refine ⟨hdisj, ?_⟩
  intro url s' id hc
  cases hf : s.free_slots with
  | nil => simp [createRedirect, hf] at hc
  | cons id0 rest =>
    rw [createRedirect, hf] at hc
    simp only [Prod.mk.injEq, Option.some.injEq] at hc
    obtain ⟨-, hid⟩ := hc
    subst hid
    have hnm : id0 ∉ s.cache.map Prod.fst := hdisj id0 (by simp [hf])
    simp [cacheGet, lookupSlot_eq_none_of_not_mem _ _ hnm]

/-- Witness for `no_double_allocation` at a fresh capacity-2 gateway. -/
theorem no_double_allocation_witness :
    1 ∉ (initState 2 5).cache.map Prod.fst ∧
    cacheGet (initState 2 5) 1 = none :=
  ⟨(no_double_allocation 2 5 _ ⟨[], rfl⟩).1 1 (by decide),
    (no_double_allocation 2 5 _ ⟨[], rfl⟩).2 wUrlA
      (createRedirect (initState 2 5) wUrlA).1 1 rfl⟩

/-- Claim C6: touching an id with a live entry resets the entry's expiry
clock to `now + ttl` while keeping its url, the free pool, the queue of
spawned releases and the cache's key list unchanged (the re-insert is a
`Replaced` removal, so no slot is released); the old expiry is at most
`now + ttl`, so a sweep at any instant before `now + ttl` — in particular
at the original expiry instant whenever the touch strictly refreshed the
clock — does not remove the entry. -/
theorem touch_live_resets (maxSlots ttl : Nat) (s : VideoGateway)
    (h : Reachable maxSlots ttl s) (id : SlotId) (e : CacheEntry)
    (hl : lookupSlot s.cache id = some e) (hlive : s.now < e.expiry) :
    lookupSlot (touchRedirectSlot s id).cache id
      = some ⟨e.url, s.now + ttl⟩ ∧
    (touchRedirectSlot s id).free_slots = s.free_slots ∧
    (touchRedirectSlot s id).pending = s.pending ∧
    (touchRedirectSlot s id).cache.map Prod.fst = s.cache.map Prod.fst ∧
    e.expiry ≤ s.now + ttl ∧
    (∀ d, d < ttl →
      lookupSlot (tickOp (advanceOp (touchRedirectSlot s id) d)).cache id
        = some ⟨e.url, s.now + ttl⟩) := by
  obtain ⟨httl, -, hexp⟩ := reachable_inv h
  have hg : cacheGet s id = some e.url := by
    simp [cacheGet, hl, hlive]
  have hcache : (touchRedirectSlot s id).cache
      = insertEntry s.cache id ⟨e.url, s.now + s.ttl⟩ := by
    simp [touchRedirectSlot, hg, cacheInsert_cache]
  have hlk : lookupSlot (touchRedirectSlot s id).cache id
      = some ⟨e.url, s.now + ttl⟩ := by
    rw [hcache, httl]
    exact lookupSlot_insertEntry_self _ _ _
  refine ⟨hlk, touch_free s id, touch_pending s id, ?_, ?_, ?_⟩
  · rw [hcache]
    exact insertEntry_map_fst_of_lookup _ _ _ _ hl
  · exact hexp (id, e) (mem_of_lookupSlot _ _ _ hl)
  · intro d hd
    have hnow1 : (advanceOp (touchRedirectSlot s id) d).now = s.now + d := by
      simp [advanceOp, touch_now]
    show lookupSlot ((advanceOp (touchRedirectSlot s id) d).cache.filter
        fun x => decide ((advanceOp (touchRedirectSlot s id) d).now
          < x.2.expiry)) id
      = some ⟨e.url, s.now + ttl⟩
    apply lookupSlot_filter _ _ _ _ hlk
    simp only [hnow1]
    exact decide_eq_true (by omega)

/-- Witness for `touch_live_resets`: entry created at time 0 (expiry 5),
touched at time 2 (new expiry 7), survives a sweep three units later. -/
theorem touch_live_resets_witness :
    lookupSlot (touchRedirectSlot (runOps (initState 2 5)
        [GwOp.create wUrlA, GwOp.advance 2]) 1).cache 1
      = some ⟨wUrlA, 7⟩ ∧
    lookupSlot (tickOp (advanceOp (touchRedirectSlot (runOps (initState 2 5)
        [GwOp.create wUrlA, GwOp.advance 2]) 1) 3)).cache 1
      = some ⟨wUrlA, 7⟩ := by
  have h := touch_live_resets 2 5
    (runOps (initState 2 5) [GwOp.create wUrlA, GwOp.advance 2])
    ⟨[GwOp.create wUrlA, GwOp.advance 2], rfl⟩ 1 ⟨wUrlA, 5⟩
    (by decide) (by decide)
  exact ⟨h.1, h.2.2.2.2.2 3 (by decide)⟩

theorem fifo_main (maxSlots ttl : Nat) :
    ∀ (ops : List GwOp) (s : VideoGateway), GwInv maxSlots ttl s →
      ∀ u a v w, ∀ b : SlotId, s.free_slots = u ++ a :: (v ++ b :: w) →
        b ∈ runAllocs s ops →
        a ∈ runAllocs s ops ∧
          firstIdx (runAllocs s ops) a < firstIdx (runAllocs s ops) b := by
  intro ops
  induction ops with
  | nil =>
    intro s _ u a v w b _ hb
    simp [runAllocs] at hb
  | cons op rest ih =>
    intro s hInv u a v w b hfree hb
    have hInv' : GwInv maxSlots ttl (stepOp s op) := gwInv_stepOp _ _ _ _ hInv
    have hndfree : s.free_slots.Nodup := (nodup_three (gwInv_nodup hInv)).1
    cases op with
    | create url =>
      cases u with
      | nil =>
        simp only [List.nil_append] at hfree
        have hout : (execOp s (GwOp.create url)).2 = some a := by
          simp [execOp, createRedirect, hfree]
        have hAll : runAllocs s (GwOp.create url :: rest)
            = a :: runAllocs (stepOp s (GwOp.create url)) rest := by
          simp [runAllocs, hout]
        have hab : a ≠ b := by
          rw [hfree] at hndfree
          simp only [List.nodup_cons] at hndfree
          intro hq
          exact hndfree.1 (by simp [hq])
        rw [hAll]
        refine ⟨List.mem_cons_self _ _, ?_⟩
        simp [firstIdx, hab]
      | cons c u' =>
        simp only [List.cons_append] at hfree
        have hout : (execOp s (GwOp.create url)).2 = some c := by
          simp [execOp, createRedirect, hfree]
        have hAll : runAllocs s (GwOp.create url :: rest)
            = c :: runAllocs (stepOp s (GwOp.create url)) rest := by
          simp [runAllocs, hout]
        have hstep_free : (stepOp s (GwOp.create url)).free_slots
            = u' ++ a :: (v ++ b :: w) := by
          simp [stepOp, execOp, createRedirect, hfree, cacheInsert_free]
        have hmem : ∀ x, x ∈ u' ++ a :: (v ++ b :: w) → c ≠ x := by
          rw [hfree] at hndfree
          simp only [List.nodup_cons] at hndfree
          intro x hx hq
          exact hndfree.1 (hq ▸ hx)
        have hca : c ≠ a := hmem a (by simp)
        have hcb : c ≠ b := hmem b (by simp)
        rw [hAll] at hb ⊢
        have hb' : b ∈ runAllocs (stepOp s (GwOp.create url)) rest := by
          rcases List.mem_cons.mp hb with hq | hq
          · exact absurd hq.symm hcb
          · exact hq
        obtain ⟨ha, hlt⟩ := ih _ hInv' u' a v w b hstep_free hb'
        refine ⟨List.mem_cons_of_mem _ ha, ?_⟩
        simp only [firstIdx, if_neg hca, if_neg hcb]
        omega
    | touch id =>
      have hAll : runAllocs s (GwOp.touch id :: rest)
          = runAllocs (stepOp s (GwOp.touch id)) rest := by
        simp [runAllocs, execOp]
      rw [hAll] at hb ⊢
      exact ih _ hInv' u a v w b
        (by simp [stepOp, execOp, touch_free, hfree]) hb
    | getOne id =>
      have hAll : runAllocs s (GwOp.getOne id :: rest)
          = runAllocs (stepOp s (GwOp.getOne id)) rest := by
        simp [runAllocs, execOp]
      rw [hAll] at hb ⊢
      exact ih _ hInv' u a v w b (by simp [stepOp, execOp, hfree]) hb
    | getAll =>
      have hAll : runAllocs s (GwOp.getAll :: rest)
          = runAllocs (stepOp s GwOp.getAll) rest := by
        simp [runAllocs, execOp]
      rw [hAll] at hb ⊢
      exact ih _ hInv' u a v w b (by simp [stepOp, execOp, hfree]) hb
    | tick =>
      have hAll : runAllocs s (GwOp.tick :: rest)
          = runAllocs (stepOp s GwOp.tick) rest := by
        simp [runAllocs, execOp]
      rw [hAll] at hb ⊢
      exact ih _ hInv' u a v w b
        (by simp [stepOp, execOp, tickOp, hfree]) hb
    | advance d =>
      have hAll : runAllocs s (GwOp.advance d :: rest)
          = runAllocs (stepOp s (GwOp.advance d)) rest := by
        simp [runAllocs, execOp]
      rw [hAll] at hb ⊢
      exact ih _ hInv' u a v w b
        (by simp [stepOp, execOp, advanceOp, hfree]) hb
    | evict =>
      have hAll : runAllocs s (GwOp.evict :: rest)
          = runAllocs (stepOp s GwOp.evict) rest := by
        simp [runAllocs, execOp]
      rw [hAll] at hb ⊢
      cases hp : s.pending with
      | nil =>
        exact ih _ hInv' u a v w b
          (by simp [stepOp, execOp, processEvictionOp, hp, hfree]) hb
      | cons p ps =>
        refine ih _ hInv' u a v (w ++ [p]) b ?_ hb
        simp [stepOp, execOp, processEvictionOp, hp, hfree]

/-- Claim C5 (FIFO reuse order): running a release pushes the id at the
tail of the free pool, `create_redirect` pops from its front, and
consequently in any reachable state whose free queue holds `a` ahead of
`b` — the state after `a` was released strictly before `b` with neither
re-released since — every event sequence that hands out `b` has handed
out `a` strictly earlier: reuse order equals release order. -/
theorem fifo_reuse (maxSlots ttl : Nat) :
    (∀ s : VideoGateway, ∀ id rest, s.pending = id :: rest →
      (processEvictionOp s).free_slots = s.free_slots ++ [id]) ∧
    (∀ (s : VideoGateway) (url : String), ∀ id rest,
      s.free_slots = id :: rest →
      (createRedirect s url).2 = some id ∧
      (createRedirect s url).1.free_slots = rest) ∧
    (∀ s : VideoGateway, Reachable maxSlots ttl s →
      ∀ u a v w, ∀ b : SlotId, s.free_slots = u ++ a :: (v ++ b :: w) →
        ∀ ops, b ∈ runAllocs s ops →
          a ∈ runAllocs s ops ∧
            firstIdx (runAllocs s ops) a < firstIdx (runAllocs s ops) b) := by
  refine ⟨?_, ?_, ?_⟩
  · intro s id rest hp
    simp [processEvictionOp, hp]
  · intro s url id rest hf
    simp [createRedirect, hf, cacheInsert_free]
  · intro s hreach u a v w b hfree ops hb
    exact fifo_main maxSlots ttl ops s (reachable_inv hreach) u a v w b
      hfree hb

/-- Witness for `fifo_reuse`: a release lands at the tail; from the fresh
pool [1, 2] two creates hand out 1 strictly before 2. -/
theorem fifo_reuse_witness :
    (processEvictionOp wState3).free_slots = wState3.free_slots ++ [3] ∧
    (createRedirect (initState 2 5) wUrlA).2 = some 1 ∧
    1 ∈ runAllocs (initState 2 5) [GwOp.create wUrlA, GwOp.create wUrlB] ∧
    firstIdx (runAllocs (initState 2 5)
        [GwOp.create wUrlA, GwOp.create wUrlB]) 1
      < firstIdx (runAllocs (initState 2 5)
        [GwOp.create wUrlA, GwOp.create wUrlB]) 2 := by
  have h3 := (fifo_reuse 2 5).2.2 (initState 2 5) ⟨[], rfl⟩ [] 1 [] [] 2
    (by decide) [GwOp.create wUrlA, GwOp.create wUrlB] (by decide)
  exact ⟨(fifo_reuse 2 5).1 wState3 3 [] rfl,
    ((fifo_reuse 2 5).2.1 (initState 2 5) wUrlA 1 [2] (by decide)).1,
    h3.1, h3.2⟩

/-- Claim C8, counterexample: the sweep cadence is not part of the
configuration surface.  `VideoGateway::new(max_slots, ttl)` exposes no
`sweep_interval` parameter, and the loop's sleep is the same literal for
every configuration, so the cadence cannot be made to vary. -/
theorem sweep_cadence_not_configurable : ¬ sweepCadenceConfigurable := by
  intro h
  obtain ⟨p, q, hpq⟩ := h
  exact hpq rfl

/-- Claim C8 as amended: the sweep cadence is a hard-coded constant of 3
seconds, identical for every configuration accepted by
`VideoGateway::new`; each iteration of the background loop runs `tick` —
removing exactly the expired entries and firing one eviction notification
per removed entry — and then sleeps those 3 seconds. -/
theorem sweep_cadence_fixed :
    (∀ p q : NewParams, sweepSleepSecs p = sweepSleepSecs q) ∧
    (∀ p : NewParams, sweepSleepSecs p = 3) ∧
    (∀ s : VideoGateway,
      (sweepLoopIter s).now = s.now + 3 ∧
      (sweepLoopIter s).cache
        = s.cache.filter (fun e => s.now < e.2.expiry) ∧
      (sweepLoopIter s).pending
        = s.pending ++ (s.cache.filter
            fun e => e.2.expiry ≤ s.now).map Prod.fst ∧
      (sweepLoopIter s).free_slots = s.free_slots) := by
  refine ⟨fun p q => rfl, fun p => rfl, ?_⟩
  intro s
  refine ⟨rfl, rfl, ?_, rfl⟩
  simp [sweepLoopIter, advanceOp, tickOp, foldl_evictionListener]
